import Mathlib

/-!
Verification development for the NpkUnlocker repository (source files
NpkUnlocker.py, NpkUnlock_GUI.py, PPKUnlocker.py): the frame-scan,
decompress, classify, dedup, write pipeline.

Modelling conventions.  Bytes are natural numbers and byte strings are lists
of naturals (a Python bytes slice data[a:b] becomes (data.drop a).take (b - a)).
The zstd decompression primitive and the MD5 digest come from external
libraries, so every model takes them as parameters: decompression is an
arbitrary function from List Nat to Option (List Nat), where none models a
raised ZstdError, and the digest is an arbitrary function into Fin (2 ^ 128),
mirroring the 128-bit value hashlib.md5 yields.  Writing a file to disk is
modelled by emitting the corresponding Artifact value.  While loops are
embedded as recursion over an explicit iteration bound; the bound
data.length + 1 always dominates the number of iterations of the source
loops, because each iteration strictly advances the scan position.
-/

/-! Magic byte constants, copied from the module constants of the sources. -/

def zstdMagic : List Nat := [40, 181, 47, 253]

def meshMagic : List Nat := [52, 128, 200, 187]

def pngMagic : List Nat := [137, 80, 78, 71]

def ktxMagic : List Nat := [171, 75, 84, 88, 32, 49, 49, 187]

def ddsMagic : List Nat := [68, 68, 83]

def riffMagic : List Nat := [82, 73, 70, 70]

def waveMagic : List Nat := [87, 65, 86, 69]

def bkhdMagic : List Nat := [66, 75, 72, 68]

def akpkMagic : List Nat := [65, 75, 80, 75]

/-- Embedding of TGA_TAIL_MAGIC, the 18 trailing bytes of a TGA file. -/
def tgaTailMagic : List Nat :=
  [84, 82, 85, 69, 86, 73, 83, 73, 79, 78, 45, 88, 70, 73, 76, 69, 46, 0]

/-- Embedding of detect_file_extension, which is textually identical in all
three source files (NpkUnlocker.py lines 29-74, NpkUnlock_GUI.py lines 85-109,
PPKUnlocker.py lines 37-82): an ordered chain of structural checks on the
payload bytes, returning the matching file suffix or the empty string. -/
def detect_file_extension (data : List Nat) : String :=
  if data = [] then ""
  else if 4 ≤ data.length ∧ data.take 4 = meshMagic then ".mesh"
  else if 4 ≤ data.length ∧ data.take 4 = pngMagic then ".png"
  else if 8 ≤ data.length ∧ data.take 8 = ktxMagic then ".ktx"
  else if 3 ≤ data.length ∧ data.take 3 = ddsMagic then ".dds"
  else if 12 ≤ data.length ∧ data.take 4 = riffMagic ∧ (data.drop 8).take 4 = waveMagic then ".wem"
  else if 4 ≤ data.length ∧ data.take 4 = bkhdMagic then ".bnk"
  else if 4 ≤ data.length ∧ data.take 4 = akpkMagic then ".npk"
  else if 4 ≤ data.length ∧ data.take 4 = zstdMagic then ".zst"
  else if 18 ≤ data.length ∧ data.drop (data.length - 18) = tgaTailMagic then ".tga"
  else ""

/-- Specification-side classifier: the ordered list of structural checks as the
spec words them (section 4.3), each a predicate on the payload paired with the
label it yields.  Priority order: mesh, PNG, KTX, DDS, RIFF/WAVE, BKHD, AKPK,
zstd magic, and last the 18-byte trailing TGA signature. -/
def specChecks : List ((List Nat → Bool) × String) :=
  [ (fun d => decide (4 ≤ d.length ∧ d.take 4 = meshMagic), ".mesh"),
    (fun d => decide (4 ≤ d.length ∧ d.take 4 = pngMagic), ".png"),
    (fun d => decide (8 ≤ d.length ∧ d.take 8 = ktxMagic), ".ktx"),
    (fun d => decide (3 ≤ d.length ∧ d.take 3 = ddsMagic), ".dds"),
    (fun d => decide (12 ≤ d.length ∧ d.take 4 = riffMagic ∧ (d.drop 8).take 4 = waveMagic), ".wem"),
    (fun d => decide (4 ≤ d.length ∧ d.take 4 = bkhdMagic), ".bnk"),
    (fun d => decide (4 ≤ d.length ∧ d.take 4 = akpkMagic), ".npk"),
    (fun d => decide (4 ≤ d.length ∧ d.take 4 = zstdMagic), ".zst"),
    (fun d => decide (18 ≤ d.length ∧ d.drop (d.length - 18) = tgaTailMagic), ".tga") ]

/-- Specification-side first-match evaluation of an ordered check chain:
the first check that holds decides the label, and the empty label is returned
when no check matches. -/
def firstMatch : List ((List Nat → Bool) × String) → List Nat → String
  | [], _ => ""
  | (check, label) :: rest, d => if check d then label else firstMatch rest d

/-! Frame scanner.  Both NpkUnlocker.py (lines 127-141) and NpkUnlock_GUI.py
(scan_zstd_frames, lines 112-122) run the same loop: repeatedly call
data.find(ZSTD_MAGIC, pos), record the hit, and resume the search four bytes
after it. -/

/-- Test whether a byte list starts with the 4-byte zstd signature; this is the
slice comparison data[i:i+4] == ZSTD_MAGIC performed at each candidate
position. -/
def magicHere (l : List Nat) : Bool := decide (l.take 4 = zstdMagic)

/-- Walk a suffix of the buffer looking for the first position whose bytes
start with the zstd signature, threading the absolute position i of the head
of the remaining suffix. -/
def findFromAux : List Nat → Nat → Option Nat
  | [], _ => none
  | x :: tl, i => if magicHere (x :: tl) then some i else findFromAux tl (i + 1)

/-- Embedding of the Python call data.find(ZSTD_MAGIC, pos): least index at or
after pos where the signature occurs, or none (Python: -1). -/
def pyFind (data : List Nat) (pos : Nat) : Option Nat :=
  findFromAux (data.drop pos) pos

/-- The 4-byte zstd signature occurs at absolute offset i of the buffer. -/
def occursAt (data : List Nat) (i : Nat) : Bool := magicHere (data.drop i)

/-- Iteration bound form of the scanning loop: find the signature, record the
offset, resume four bytes later.  The first argument only bounds the number of
iterations. -/
def scanAux (data : List Nat) : Nat → Nat → List Nat
  | 0, _ => []
  | fuel + 1, pos =>
    match pyFind data pos with
    | none => []
    | some p => p :: scanAux data fuel (p + 4)

/-- Scan for frames starting at an arbitrary position; data.length + 1
iterations always suffice because each iteration advances the position. -/
def scanFrom (data : List Nat) (pos : Nat) : List Nat :=
  scanAux data (data.length + 1) pos

/-- Embedding of scan_zstd_frames (NpkUnlock_GUI.py lines 112-122) and the
identical frame-position loop of extract_zstd_container (NpkUnlocker.py lines
134-141). -/
def scan_zstd_frames (data : List Nat) : List Nat := scanFrom data 0

/-! Extraction pipeline of NpkUnlocker.py.  The zstd library and hashlib.md5
are external, so decompression and the digest are parameters of the model. -/

/-- Fingerprint values produced by the content digest; hashlib.md5 yields a
128-bit value, modelled as Fin (2 ^ 128). -/
abbrev Fingerprint := Fin (2 ^ 128)

/-- Shared concrete fingerprint used by the closed witness statements. -/
def fp0 : Fingerprint := ⟨0, Nat.pos_pow_of_pos 128 (by norm_num)⟩

/-- Result of a successful extraction task: the written file, carrying the
frame index used in the generated name, the detected suffix, the payload size
and the content hash. -/
structure Artifact where
  frameIdx : Nat
  ext : String
  size : Nat
  hash : Fingerprint
  deriving DecidableEq

/-- Result of one NpkUnlocker extraction task: whether a file was written, the
dedup set afterwards, and the emitted artifact if any. -/
structure NpkTaskOut where
  ok : Bool
  hashes : List Fingerprint
  artifact : Option Artifact
  deriving DecidableEq

/-- Embedding of extract_single_frame (NpkUnlocker.py lines 77-110):
decompress the suffix at the frame start (a ZstdError or any other exception
is the none case and yields ok = false), hash the payload, skip it when the
hash was already recorded, otherwise classify, write, and record the hash. -/
def extract_single_frame (decomp : List Nat → Option (List Nat))
    (md5 : List Nat → Fingerprint) (data : List Nat)
    (frame_start frame_idx : Nat) (extracted_hashes : List Fingerprint) :
    NpkTaskOut :=
  match decomp (data.drop frame_start) with
  | none => ⟨false, extracted_hashes, none⟩
  | some decompressed =>
    let file_hash := md5 decompressed
    if file_hash ∈ extracted_hashes then ⟨false, extracted_hashes, none⟩
    else
      let ext := detect_file_extension decompressed
      ⟨true, file_hash :: extracted_hashes,
        some ⟨frame_idx, ext, decompressed.length, file_hash⟩⟩

/-- Aggregate result of a container run: the extracted count, the final dedup
set and the artifacts written. -/
structure NpkOut where
  count : Nat
  hashes : List Fingerprint
  artifacts : List Artifact
  deriving DecidableEq

/-- Embedding of the frame loop of extract_zstd_container (NpkUnlocker.py
lines 168-174, the serial branch; the FAST_MODE branch runs the same tasks
through a thread pool and is modelled by this linearization): one task per
enumerated frame position, counting the tasks that return true. -/
def npkLoop (decomp : List Nat → Option (List Nat))
    (md5 : List Nat → Fingerprint) (data : List Nat) :
    List (Nat × Nat) → List Fingerprint → NpkOut
  | [], hs => ⟨0, hs, []⟩
  | (i, p) :: rest, hs =>
    let t := extract_single_frame decomp md5 data p i hs
    let r := npkLoop decomp md5 data rest t.hashes
    ⟨r.count + (if t.ok then 1 else 0),
     r.hashes,
     match t.artifact with
     | some a => a :: r.artifacts
     | none => r.artifacts⟩

/-- Embedding of extract_zstd_container (NpkUnlocker.py lines 113-179): scan
the buffer for frame positions, then run one extraction task per position
starting from a freshly created empty dedup set (line 148). -/
def extract_zstd_container (decomp : List Nat → Option (List Nat))
    (md5 : List Nat → Fingerprint) (data : List Nat) : NpkOut :=
  npkLoop decomp md5 data (scan_zstd_frames data).enum []

/-! Windowed extraction pipeline of PPKUnlocker.py (process_ppk_file, lines
88-173): scan for the zstd signature, cut the buffer into blocks bounded by
the next signature or a 20 MiB cap, discard blocks below 1 KiB, fingerprint
the raw compressed block against the global MD5 set before decompressing, then
decompress, classify and write. -/

/-- Embedding of MAX_BLOCK_SIZE (PPKUnlocker.py line 12): 20 MiB. -/
def MAX_BLOCK_SIZE : Nat := 20 * 1024 * 1024

/-- What happened to one scanned block of a PPK file. -/
inductive BlockOutcome where
  | tooSmall
  | duplicate
  | decodeFail
  | written (payload : List Nat) (ext : String)
  deriving DecidableEq

/-- Trace record for one scanned block: its byte range, the fingerprint
computed for it (none when the block was discarded as too small before the
fingerprint was taken), and its outcome. -/
structure BlockRec where
  start : Nat
  stop : Nat
  fp : Option Fingerprint
  outcome : BlockOutcome
  deriving DecidableEq

/-- Result of a PPK run: the per-block trace and the final dedup set. -/
structure PpkOut where
  records : List BlockRec
  seen : List Fingerprint
  deriving DecidableEq

/-- Body of one iteration of the block loop of process_ppk_file (lines
117-158), given the block range [p, blockEnd): slice the raw block, discard it
if below 1024 bytes, otherwise fingerprint it, skip it if the fingerprint is
already in the dedup set, otherwise record the fingerprint and only then try
to decompress; a decompression failure keeps the fingerprint recorded.
Returns the block record and the updated dedup set. -/
def ppkStep (decomp : List Nat → Option (List Nat))
    (md5 : List Nat → Fingerprint) (data : List Nat)
    (p blockEnd : Nat) (seen : List Fingerprint) :
    BlockRec × List Fingerprint :=
  let zstdData := (data.drop p).take (blockEnd - p)
  if zstdData.length < 1024 then (⟨p, blockEnd, none, .tooSmall⟩, seen)
  else
    let f := md5 zstdData
    if f ∈ seen then (⟨p, blockEnd, some f, .duplicate⟩, seen)
    else
      match decomp zstdData with
      | none => (⟨p, blockEnd, some f, .decodeFail⟩, f :: seen)
      | some payload =>
        (⟨p, blockEnd, some f, .written payload (detect_file_extension payload)⟩,
         f :: seen)

/-- End of the block that starts at signature offset p (PPKUnlocker.py lines
110-115): the next signature position when one exists, the buffer end
otherwise. -/
def nextEndOf (data : List Nat) (p : Nat) : Nat :=
  match pyFind data (p + 4) with
  | none => data.length
  | some q => q

/-- Embedding of block_end (line 112): the block is cut at the next signature
or at the 20 MiB cap, whichever comes first. -/
def blockEndOf (data : List Nat) (p : Nat) : Nat :=
  min (nextEndOf data p) (p + MAX_BLOCK_SIZE)

/-- Block loop of process_ppk_file (lines 104-159): while the offset is inside
the buffer, find the next signature, bound the block by the following
signature (or the buffer end) and the 20 MiB cap, process the block and
resume at the block end.  The first argument only bounds the number of
iterations; data.length + 1 always suffices. -/
def ppkAux (decomp : List Nat → Option (List Nat))
    (md5 : List Nat → Fingerprint) (data : List Nat) :
    Nat → Nat → List Fingerprint → PpkOut
  | 0, _, seen => ⟨[], seen⟩
  | fuel + 1, offset, seen =>
    if offset < data.length then
      match pyFind data offset with
      | none => ⟨[], seen⟩
      | some p =>
        let s := ppkStep decomp md5 data p (blockEndOf data p) seen
        let r := ppkAux decomp md5 data fuel (blockEndOf data p) s.2
        ⟨s.1 :: r.records, r.seen⟩
    else ⟨[], seen⟩

/-- Block loop started at an arbitrary offset with a sufficient iteration
bound. -/
def ppkFrom (decomp : List Nat → Option (List Nat))
    (md5 : List Nat → Fingerprint) (data : List Nat)
    (offset : Nat) (seen : List Fingerprint) : PpkOut :=
  ppkAux decomp md5 data (data.length + 1) offset seen

/-- Embedding of process_ppk_file (PPKUnlocker.py lines 88-173) on an
in-memory file: the block loop from offset 0.  The ambient DUPLICATE_MD5 set
(line 85, a module global) is the seen₀ argument; one process run starts it
empty. -/
def process_ppk_file (decomp : List Nat → Option (List Nat))
    (md5 : List Nat → Fingerprint) (data : List Nat)
    (seen₀ : List Fingerprint) : PpkOut :=
  ppkFrom decomp md5 data 0 seen₀

/-- Specification-side block table: each scanned signature offset paired with
its block end, the next scanned offset (or the buffer end for the last block)
capped at start plus MAX_BLOCK_SIZE, as the spec words the windowed policy
(section 4.2). -/
def pairBlocks (len : Nat) : List Nat → List (Nat × Nat)
  | [] => []
  | [p] => [(p, min len (p + MAX_BLOCK_SIZE))]
  | p :: q :: rest => (p, min q (p + MAX_BLOCK_SIZE)) :: pairBlocks len (q :: rest)

/-- Shared concrete windowed block: a signature followed by 1020 zero bytes,
exactly 1024 bytes long. -/
def oneBlock : List Nat := zstdMagic ++ List.replicate 1020 0

/-- Shared concrete container with two byte-identical 1024-byte blocks. -/
def twoBlocks : List Nat := oneBlock ++ oneBlock

/-! GUI extraction worker of NpkUnlock_GUI.py.  The cooperative stop flag is
read through stop_flag(); the model indexes the successive reads of the flag,
so stop n is the value the n-th read observes (a write-once false-to-true
token corresponds to a monotone stop sequence). -/

/-- Status message of one GUI extraction task.  The four interruption
constructors correspond to the four distinctly worded Chinese messages of
extract_single_frame (NpkUnlock_GUI.py lines 136, 142, 147 and 169). -/
inductive TaskMsg where
  | interruptedNotStarted
  | interruptedBeforeDecompress
  | interruptedNotYetWritten
  | interruptedNoWrite
  | duplicateSkip
  | decodeFail
  | success
  deriving DecidableEq

/-- Result of one GUI extraction task: the (ok, msg, info) triple of the
source, the dedup set afterwards, and the number of stop-flag reads
performed so far. -/
structure GuiTaskOut where
  ok : Bool
  msg : TaskMsg
  artifact : Option Artifact
  hashes : List Fingerprint
  polls : Nat
  deriving DecidableEq

/-- Embedding of extract_single_frame (NpkUnlock_GUI.py lines 125-196): the
stop flag is polled at task entry (line 135), before decompression (line 141),
after decompression and before the fingerprint/dedup check (line 146), and
before the file write (line 168); each interruption returns its own message,
writes nothing and leaves the dedup set unchanged.  A failed decompression is
the decodeFail outcome (lines 191-193). -/
def gui_extract_single_frame (decomp : List Nat → Option (List Nat))
    (md5 : List Nat → Fingerprint) (stop : Nat → Bool) (data : List Nat)
    (frame_start frame_idx : Nat) (extracted_hashes : List Fingerprint)
    (enable_md5 enable_type_detect : Bool) (polls : Nat) : GuiTaskOut :=
  if stop polls then
    ⟨false, .interruptedNotStarted, none, extracted_hashes, polls + 1⟩
  else if stop (polls + 1) then
    ⟨false, .interruptedBeforeDecompress, none, extracted_hashes, polls + 2⟩
  else
    match decomp (data.drop frame_start) with
    | none => ⟨false, .decodeFail, none, extracted_hashes, polls + 2⟩
    | some decompressed =>
      if stop (polls + 2) then
        ⟨false, .interruptedNotYetWritten, none, extracted_hashes, polls + 3⟩
      else
        let file_hash := md5 decompressed
        if enable_md5 = true ∧ file_hash ∈ extracted_hashes then
          ⟨false, .duplicateSkip, none, extracted_hashes, polls + 3⟩
        else
          let ext := if enable_type_detect then detect_file_extension decompressed
            else ""
          if stop (polls + 3) then
            ⟨false, .interruptedNoWrite, none, extracted_hashes, polls + 4⟩
          else
            ⟨true, .success,
              some ⟨frame_idx, ext, decompressed.length, file_hash⟩,
              if enable_md5 then file_hash :: extracted_hashes
                else extracted_hashes,
              polls + 4⟩

/-- Aggregate result of a worker run: extracted count, written artifacts,
final dedup set, stop-flag read counter. -/
structure RunOut where
  count : Nat
  artifacts : List Artifact
  hashes : List Fingerprint
  polls : Nat
  deriving DecidableEq

/-- Embedding of the serial frame loop of ExtractWorker.run (NpkUnlock_GUI.py
lines 376-389; the fast-mode branch runs the same tasks through a thread pool
and is modelled by this linearization): before each frame the loop reads the
stop flag and breaks when it is set, otherwise it runs one extraction task. -/
def guiLoop (decomp : List Nat → Option (List Nat))
    (md5 : List Nat → Fingerprint) (stop : Nat → Bool) (data : List Nat)
    (enable_md5 enable_type_detect : Bool) :
    List (Nat × Nat) → List Fingerprint → Nat → RunOut
  | [], hs, polls => ⟨0, [], hs, polls⟩
  | (i, p) :: rest, hs, polls =>
    if stop polls then ⟨0, [], hs, polls + 1⟩
    else
      let t := gui_extract_single_frame decomp md5 stop data p i hs
        enable_md5 enable_type_detect (polls + 1)
      let r := guiLoop decomp md5 stop data enable_md5 enable_type_detect
        rest t.hashes t.polls
      ⟨r.count + (if t.ok then 1 else 0),
        (match t.artifact with
         | some a => a :: r.artifacts
         | none => r.artifacts),
        r.hashes, r.polls⟩

/-- Embedding of ExtractWorker.run (NpkUnlock_GUI.py lines 297-398) on an
in-memory file, starting from an explicit dedup set: scan the frames, stop
early when the flag is already set after scanning (line 325), otherwise run
the serial loop over the enumerated frame positions. -/
def ExtractWorker_run_from (decomp : List Nat → Option (List Nat))
    (md5 : List Nat → Fingerprint) (stop : Nat → Bool) (data : List Nat)
    (enable_md5 enable_type_detect : Bool) (init : List Fingerprint) : RunOut :=
  if stop 0 then ⟨0, [], init, 1⟩
  else guiLoop decomp md5 stop data enable_md5 enable_type_detect
    (scan_zstd_frames data).enum init 1

/-- Embedding of ExtractWorker.run as the source invokes it: the dedup set is
a freshly created empty set at the start of every run (line 338,
extracted_hashes = set()). -/
def ExtractWorker_run (decomp : List Nat → Option (List Nat))
    (md5 : List Nat → Fingerprint) (stop : Nat → Bool) (data : List Nat)
    (enable_md5 enable_type_detect : Bool) : RunOut :=
  ExtractWorker_run_from decomp md5 stop data enable_md5 enable_type_detect []

/-- Stop sequence that is false for the first k reads and true afterwards,
the linearization of a write-once cancellation token set just before the
k-th read. -/
def stopGe (k : Nat) : Nat → Bool := fun n => decide (k ≤ n)

/-- Stop sequence of a run that is never cancelled. -/
def stopNever : Nat → Bool := fun _ => false

/-! Dedup index under concurrency (claim C2).  PPKUnlocker.py lines 126-131
perform the check-and-mark as two separate set operations on the module-wide
DUPLICATE_MD5 set, with no lock anywhere in the file (the comments at lines 84
and 126 nevertheless assert thread safety); NpkUnlock_GUI.py lines 149-174
even separate them by the decompression and file write.  Under the Python
runtime each single set operation is atomic but the pair is not, so two tasks
can interleave between the membership test and the insertion.  The model
makes the two operations two separate atomic transitions of a small labelled
system. -/

/-- Progress of one extraction task through the dedup check-and-mark. -/
inductive DedupPhase where
  | ready
  | checked (fresh : Bool)
  | finished (won : Bool)
  deriving DecidableEq

/-- State of the shared dedup index plus the per-task control points. -/
structure DedupSystem where
  seen : List Fingerprint
  tasks : List (Fingerprint × DedupPhase)
  deriving DecidableEq

/-- Interleaving semantics of the unsynchronized check-and-mark: check is the
membership test block_md5 in DUPLICATE_MD5 (PPKUnlocker.py line 128), mark is
the later DUPLICATE_MD5.add (line 131), and skip is the duplicate-continue
path; no transition couples check and mark into one atomic action because the
source takes no lock. -/
inductive DedupStep : DedupSystem → DedupSystem → Prop where
  | check (s : DedupSystem) (k : Nat) (f : Fingerprint)
      (h : s.tasks.get? k = some (f, DedupPhase.ready)) :
      DedupStep s ⟨s.seen,
        s.tasks.set k (f, DedupPhase.checked (decide (f ∉ s.seen)))⟩
  | mark (s : DedupSystem) (k : Nat) (f : Fingerprint)
      (h : s.tasks.get? k = some (f, DedupPhase.checked true)) :
      DedupStep s ⟨f :: s.seen, s.tasks.set k (f, DedupPhase.finished true)⟩
  | skip (s : DedupSystem) (k : Nat) (f : Fingerprint)
      (h : s.tasks.get? k = some (f, DedupPhase.checked false)) :
      DedupStep s ⟨s.seen, s.tasks.set k (f, DedupPhase.finished false)⟩

/-- C3: for every byte string the classifier applies its structural checks in
exactly the stated first-match priority order (mesh, then PNG, then KTX, then
DDS, then RIFF/WAVE, then BKHD, then AKPK, then zstd magic, then the trailing
TGA signature) and returns the empty label otherwise; hence an input matching
an earlier check receives that earlier label even if a later check also
matches. -/
theorem detect_matches_spec_chain (data : List Nat) :
    detect_file_extension data = firstMatch specChecks data := by
  by_cases h : data = []
  · subst h; rfl
  · simp only [detect_file_extension, firstMatch, specChecks, h, if_false,
      decide_eq_true_eq]

lemma magicHere_length {l : List Nat} (h : magicHere l = true) : 4 ≤ l.length := by
  unfold magicHere at h
  rw [decide_eq_true_eq] at h
  have hlen := congrArg List.length h
  rw [List.length_take] at hlen
  simp only [zstdMagic, List.length_cons, List.length_nil] at hlen
  omega

lemma occursAt_le {data : List Nat} {i : Nat} (h : occursAt data i = true) :
    i + 4 ≤ data.length := by
  have h4 := magicHere_length h
  rw [List.length_drop] at h4
  omega

lemma occursAt_shift (data : List Nat) {pos j : Nat} (h : pos ≤ j) :
    magicHere ((data.drop pos).drop (j - pos)) = occursAt data j := by
  rw [List.drop_drop, Nat.add_sub_cancel' h]
  rfl

lemma findFromAux_some : ∀ (l : List Nat) (i p : Nat), findFromAux l i = some p →
    i ≤ p ∧ magicHere (l.drop (p - i)) = true := by
  intro l
  induction l with
  | nil => intro i p h; simp [findFromAux] at h
  | cons x tl ih =>
    intro i p h
    by_cases hm : magicHere (x :: tl) = true
    · simp only [findFromAux, hm, if_true, Option.some.injEq] at h
      subst h
      exact ⟨le_refl i, by simpa using hm⟩
    · simp only [findFromAux, hm, if_false, Bool.false_eq_true] at h
      obtain ⟨h1, h2⟩ := ih (i + 1) p h
      refine ⟨by omega, ?_⟩
      have hd : p - i = (p - (i + 1)) + 1 := by omega
      rw [hd, List.drop_succ_cons]
      exact h2

lemma findFromAux_min : ∀ (l : List Nat) (i p : Nat), findFromAux l i = some p →
    ∀ j, i ≤ j → j < p → magicHere (l.drop (j - i)) = false := by
  intro l
  induction l with
  | nil => intro i p h; simp [findFromAux] at h
  | cons x tl ih =>
    intro i p h j hij hjp
    by_cases hm : magicHere (x :: tl) = true
    · simp only [findFromAux, hm, if_true, Option.some.injEq] at h
      omega
    · simp only [findFromAux, hm, if_false, Bool.false_eq_true] at h
      rcases Nat.eq_or_lt_of_le hij with rfl | hlt
      · simpa using hm
      · have hd : j - i = (j - (i + 1)) + 1 := by omega
        rw [hd, List.drop_succ_cons]
        exact ih (i + 1) p h j hlt hjp

lemma findFromAux_none : ∀ (l : List Nat) (i : Nat), findFromAux l i = none →
    ∀ j, i ≤ j → magicHere (l.drop (j - i)) = false := by
  intro l
  induction l with
  | nil =>
    intro i _ j _
    simp [magicHere, zstdMagic]
  | cons x tl ih =>
    intro i h j hij
    by_cases hm : magicHere (x :: tl) = true
    · simp [findFromAux, hm] at h
    · simp only [findFromAux, hm, if_false, Bool.false_eq_true] at h
      rcases Nat.eq_or_lt_of_le hij with rfl | hlt
      · simpa using hm
      · have hd : j - i = (j - (i + 1)) + 1 := by omega
        rw [hd, List.drop_succ_cons]
        exact ih (i + 1) h j hlt

lemma pyFind_sound {data : List Nat} {pos p : Nat} (h : pyFind data pos = some p) :
    pos ≤ p ∧ occursAt data p = true := by
  obtain ⟨h1, h2⟩ := findFromAux_some _ _ _ h
  exact ⟨h1, by rw [← occursAt_shift data h1]; exact h2⟩

lemma pyFind_min {data : List Nat} {pos p : Nat} (h : pyFind data pos = some p) :
    ∀ j, pos ≤ j → j < p → occursAt data j = false := by
  intro j h1 h2
  rw [← occursAt_shift data h1]
  exact findFromAux_min _ _ _ h j h1 h2

lemma pyFind_none {data : List Nat} {pos : Nat} (h : pyFind data pos = none) :
    ∀ j, pos ≤ j → occursAt data j = false := by
  intro j h1
  rw [← occursAt_shift data h1]
  exact findFromAux_none _ _ h j h1

lemma pyFind_ge_none (data : List Nat) {pos : Nat} (h : data.length ≤ pos) :
    pyFind data pos = none := by
  unfold pyFind
  rw [List.drop_eq_nil_of_le h]
  rfl

lemma pyFind_eq_some {data : List Nat} {pos p : Nat} (h1 : pos ≤ p)
    (h2 : occursAt data p = true)
    (h3 : ∀ j, pos ≤ j → j < p → occursAt data j = false) :
    pyFind data pos = some p := by
  cases hf : pyFind data pos with
  | none =>
    have := pyFind_none hf p h1
    rw [h2] at this
    cases this
  | some q =>
    obtain ⟨hq1, hq2⟩ := pyFind_sound hf
    rcases Nat.lt_trichotomy q p with hlt | rfl | hgt
    · have := h3 q hq1 hlt
      rw [hq2] at this
      cases this
    · rfl
    · have := pyFind_min hf p h1 hgt
      rw [h2] at this
      cases this

lemma pyFind_congr {data : List Nat} {s t : Nat} (hst : s ≤ t)
    (hno : ∀ j, s ≤ j → j < t → occursAt data j = false) :
    pyFind data t = pyFind data s := by
  cases hf : pyFind data s with
  | none =>
    cases hg : pyFind data t with
    | none => rfl
    | some q =>
      obtain ⟨hq1, hq2⟩ := pyFind_sound hg
      have := pyFind_none hf q (by omega)
      rw [hq2] at this
      cases this
  | some p =>
    obtain ⟨hp1, hp2⟩ := pyFind_sound hf
    have htp : t ≤ p := by
      by_contra hc
      have := hno p hp1 (by omega)
      rw [hp2] at this
      cases this
    exact pyFind_eq_some htp hp2 (fun j hj1 hj2 => pyFind_min hf j (by omega) hj2)

lemma scanAux_congr (data : List Nat) : ∀ f₁ f₂ pos,
    data.length + 1 - pos ≤ f₁ → data.length + 1 - pos ≤ f₂ →
    scanAux data f₁ pos = scanAux data f₂ pos := by
  intro f₁
  induction f₁ with
  | zero =>
    intro f₂ pos h1 _
    have hnone := pyFind_ge_none data (show data.length ≤ pos by omega)
    cases f₂ with
    | zero => rfl
    | succ g => simp [scanAux, hnone]
  | succ f ih =>
    intro f₂ pos h1 h2
    cases f₂ with
    | zero =>
      have hnone := pyFind_ge_none data (show data.length ≤ pos by omega)
      simp [scanAux, hnone]
    | succ g =>
      simp only [scanAux]
      cases hf : pyFind data pos with
      | none => rfl
      | some p =>
        obtain ⟨hp1, hp2⟩ := pyFind_sound hf
        have hb := occursAt_le hp2
        exact congrArg (p :: ·) (ih g (p + 4) (by omega) (by omega))

lemma scanFrom_eq (data : List Nat) (pos : Nat) :
    scanFrom data pos =
      match pyFind data pos with
      | none => []
      | some p => p :: scanFrom data (p + 4) := by
  unfold scanFrom
  conv_lhs => simp only [scanAux]
  cases hf : pyFind data pos with
  | none => rfl
  | some p =>
    obtain ⟨hp1, hp2⟩ := pyFind_sound hf
    have hb := occursAt_le hp2
    exact congrArg (p :: ·)
      (scanAux_congr data data.length (data.length + 1) (p + 4) (by omega) (by omega))

lemma scanFrom_sound (data : List Nat) : ∀ n pos, data.length - pos ≤ n →
    ∀ i ∈ scanFrom data pos, pos ≤ i ∧ occursAt data i = true := by
  intro n
  induction n with
  | zero =>
    intro pos h i hi
    rw [scanFrom_eq, pyFind_ge_none data (by omega)] at hi
    cases hi
  | succ n ih =>
    intro pos h i hi
    rw [scanFrom_eq] at hi
    cases hf : pyFind data pos with
    | none => rw [hf] at hi; cases hi
    | some p =>
      rw [hf] at hi
      obtain ⟨hp1, hp2⟩ := pyFind_sound hf
      have hb := occursAt_le hp2
      rcases List.mem_cons.mp hi with rfl | hi'
      · exact ⟨hp1, hp2⟩
      · obtain ⟨h1, h2⟩ := ih (p + 4) (by omega) i hi'
        exact ⟨by omega, h2⟩

lemma scanFrom_mem {data : List Nat} {pos i : Nat} (hi : i ∈ scanFrom data pos) :
    pos ≤ i ∧ occursAt data i = true :=
  scanFrom_sound data (data.length - pos) pos le_rfl i hi

lemma scanFrom_chain (data : List Nat) : ∀ n pos, data.length - pos ≤ n →
    List.Pairwise (fun a b => a + 4 ≤ b) (scanFrom data pos) := by
  intro n
  induction n with
  | zero =>
    intro pos h
    rw [scanFrom_eq, pyFind_ge_none data (by omega)]
    exact List.Pairwise.nil
  | succ n ih =>
    intro pos h
    rw [scanFrom_eq]
    cases hf : pyFind data pos with
    | none => exact List.Pairwise.nil
    | some p =>
      obtain ⟨hp1, hp2⟩ := pyFind_sound hf
      have hb := occursAt_le hp2
      exact List.Pairwise.cons
        (fun b hb' => (scanFrom_mem hb').1)
        (ih (p + 4) (by omega))

lemma scanFrom_complete (data : List Nat) : ∀ n pos j, data.length - pos ≤ n →
    pos ≤ j → occursAt data j = true →
    j ∈ scanFrom data pos ∨ ∃ i ∈ scanFrom data pos, i < j ∧ j < i + 4 := by
  intro n
  induction n with
  | zero =>
    intro pos j h hj hjo
    have := occursAt_le hjo
    omega
  | succ n ih =>
    intro pos j h hj hjo
    rw [scanFrom_eq]
    cases hf : pyFind data pos with
    | none =>
      have := pyFind_none hf j hj
      rw [hjo] at this
      cases this
    | some p =>
      obtain ⟨hp1, hp2⟩ := pyFind_sound hf
      have hb := occursAt_le hp2
      have hpj : p ≤ j := by
        by_contra hc
        have := pyFind_min hf j hj (by omega)
        rw [hjo] at this
        cases this
      rcases Nat.eq_or_lt_of_le hpj with rfl | hlt
      · exact Or.inl (List.mem_cons_self _ _)
      · by_cases hnear : j < p + 4
        · exact Or.inr ⟨p, List.mem_cons_self _ _, hlt, hnear⟩
        · rcases ih (p + 4) j (by omega) (by omega) hjo with hmem | ⟨i, hi, h1, h2⟩
          · exact Or.inl (List.mem_cons_of_mem _ hmem)
          · exact Or.inr ⟨i, List.mem_cons_of_mem _ hi, h1, h2⟩

/-- C4: the frame scanner returns exactly the greedy non-overlapping left to
right occurrences of the 4-byte zstd signature: every returned offset is a
genuine occurrence, the offsets are strictly ascending with gaps of at least
four bytes (the search resumes four bytes after each match), and no signature
occurrence is skipped: any occurrence not returned overlaps a returned one
that starts strictly earlier. -/
theorem scan_zstd_frames_exact (data : List Nat) :
    (∀ i ∈ scan_zstd_frames data, occursAt data i = true)
    ∧ List.Pairwise (fun a b => a + 4 ≤ b) (scan_zstd_frames data)
    ∧ (∀ j, occursAt data j = true →
        j ∈ scan_zstd_frames data
        ∨ ∃ i ∈ scan_zstd_frames data, i < j ∧ j < i + 4) := by
  refine ⟨fun i hi => (scanFrom_mem hi).2, ?_, ?_⟩
  · exact scanFrom_chain data data.length 0 (by omega)
  · intro j hj
    exact scanFrom_complete data data.length 0 j (by omega) (Nat.zero_le j) hj

/-- Witness for C4 at a concrete buffer: a single occurrence at offset 1 is
both reported sound and found complete. -/
theorem scan_zstd_frames_exact_witness :
    occursAt (0 :: zstdMagic) 1 = true
    ∧ (1 ∈ scan_zstd_frames (0 :: zstdMagic)
        ∨ ∃ i ∈ scan_zstd_frames (0 :: zstdMagic), i < 1 ∧ 1 < i + 4) :=
  ⟨(scan_zstd_frames_exact (0 :: zstdMagic)).1 1 (by decide),
   (scan_zstd_frames_exact (0 :: zstdMagic)).2.2 1 (by decide)⟩

lemma npkLoop_count_le (decomp : List Nat → Option (List Nat))
    (md5 : List Nat → Fingerprint) (data : List Nat) :
    ∀ (l : List (Nat × Nat)) (hs : List Fingerprint),
      (npkLoop decomp md5 data l hs).count ≤ l.length := by
  intro l
  induction l with
  | nil => intro hs; simp [npkLoop]
  | cons x rest ih =>
    intro hs
    obtain ⟨i, p⟩ := x
    simp only [npkLoop, List.length_cons]
    have := ih (extract_single_frame decomp md5 data p i hs).hashes
    split <;> omega

/-- C5: a decompression failure at a scanned offset is a recoverable per-task
error: the failing task returns false, writes nothing and leaves the dedup set
untouched; the remaining frames of the run are processed exactly as if the
failing frame were absent; and a container whose only scanned frame fails to
decompress completes normally with zero artifacts extracted. -/
theorem decode_failure_recoverable (decomp : List Nat → Option (List Nat))
    (md5 : List Nat → Fingerprint) (data : List Nat) (p i : Nat)
    (hs : List Fingerprint) (rest : List (Nat × Nat))
    (hfail : decomp (data.drop p) = none) :
    extract_single_frame decomp md5 data p i hs = ⟨false, hs, none⟩
    ∧ npkLoop decomp md5 data ((i, p) :: rest) hs = npkLoop decomp md5 data rest hs
    ∧ (scan_zstd_frames data = [p] →
        extract_zstd_container decomp md5 data = ⟨0, [], []⟩) := by
  have htask : extract_single_frame decomp md5 data p i hs = ⟨false, hs, none⟩ := by
    simp [extract_single_frame, hfail]
  have htask0 : extract_single_frame decomp md5 data p 0 [] = ⟨false, [], none⟩ := by
    simp [extract_single_frame, hfail]
  refine ⟨htask, ?_, ?_⟩
  · simp [npkLoop, htask]
  · intro hscan
    simp [extract_zstd_container, hscan, List.enum, npkLoop, htask0]

/-- Witness for C5 at a concrete container: the buffer consisting of just the
bare zstd signature has exactly one scanned frame, and with a decompressor
that rejects it the task fails cleanly and the whole run yields zero
artifacts. -/
theorem decode_failure_recoverable_witness :
    extract_single_frame (fun _ => none) (fun _ => fp0) zstdMagic 0 0 []
        = ⟨false, [], none⟩
    ∧ extract_zstd_container (fun _ => none) (fun _ => fp0) zstdMagic
        = ⟨0, [], []⟩ := by
  have h := decode_failure_recoverable (fun _ => none) (fun _ => fp0)
    zstdMagic 0 0 [] [] rfl
  exact ⟨h.1, h.2.2 (by decide)⟩

lemma ppkStep_start_stop (decomp : List Nat → Option (List Nat))
    (md5 : List Nat → Fingerprint) (data : List Nat)
    (p e : Nat) (seen : List Fingerprint) :
    (ppkStep decomp md5 data p e seen).1.start = p
    ∧ (ppkStep decomp md5 data p e seen).1.stop = e := by
  simp only [ppkStep]
  split
  · exact ⟨rfl, rfl⟩
  · split
    · exact ⟨rfl, rfl⟩
    · split <;> exact ⟨rfl, rfl⟩

lemma ppkStep_small (decomp : List Nat → Option (List Nat))
    (md5 : List Nat → Fingerprint) (data : List Nat)
    (p e : Nat) (seen : List Fingerprint)
    (hsz : ((data.drop p).take (e - p)).length < 1024) :
    ppkStep decomp md5 data p e seen = (⟨p, e, none, .tooSmall⟩, seen) := by
  simp only [ppkStep]
  rw [if_pos hsz]

lemma ppkStep_fp {decomp : List Nat → Option (List Nat)}
    {md5 : List Nat → Fingerprint} {data : List Nat}
    {p e : Nat} {seen : List Fingerprint} {f : Fingerprint}
    (h : (ppkStep decomp md5 data p e seen).1.fp = some f) :
    f = md5 ((data.drop p).take (e - p)) := by
  simp only [ppkStep] at h
  split at h
  · cases h
  · split at h
    · cases h; rfl
    · split at h <;> (cases h; rfl)

lemma ppkStep_seen_mono {decomp : List Nat → Option (List Nat)}
    {md5 : List Nat → Fingerprint} {data : List Nat}
    {p e : Nat} {seen : List Fingerprint} {g : Fingerprint}
    (h : g ∈ seen) : g ∈ (ppkStep decomp md5 data p e seen).2 := by
  simp only [ppkStep]
  split
  · exact h
  · split
    · exact h
    · split <;> exact List.mem_cons_of_mem _ h

lemma ppkStep_fp_in_seen {decomp : List Nat → Option (List Nat)}
    {md5 : List Nat → Fingerprint} {data : List Nat}
    {p e : Nat} {seen : List Fingerprint} {f : Fingerprint}
    (h : (ppkStep decomp md5 data p e seen).1.fp = some f) :
    f ∈ (ppkStep decomp md5 data p e seen).2 := by
  simp only [ppkStep] at h ⊢
  split at h
  · cases h
  · rename_i hsz
    split at h
    · rename_i hmem
      cases h
      rw [if_neg hsz, if_pos hmem]
      exact hmem
    · rename_i hmem
      rw [if_neg hsz, if_neg hmem]
      split at h <;> (cases h; exact List.mem_cons_self _ _)

lemma ppkStep_dup_of_seen {decomp : List Nat → Option (List Nat)}
    {md5 : List Nat → Fingerprint} {data : List Nat}
    {p e : Nat} {seen : List Fingerprint} {f : Fingerprint}
    (hfp : (ppkStep decomp md5 data p e seen).1.fp = some f)
    (hmem : f ∈ seen) :
    (ppkStep decomp md5 data p e seen).1.outcome = .duplicate := by
  have hf := ppkStep_fp hfp
  simp only [ppkStep] at hfp ⊢
  split at hfp
  · cases hfp
  · rename_i hsz
    split at hfp
    · rename_i hin
      rw [if_neg hsz, if_pos hin]
    · rename_i hin
      exact absurd (hf ▸ hmem) hin

lemma ppkStep_decomp_irrel (d₁ d₂ : List Nat → Option (List Nat))
    (md5 : List Nat → Fingerprint) (data : List Nat)
    (p e : Nat) (seen : List Fingerprint) :
    (ppkStep d₁ md5 data p e seen).1.start = (ppkStep d₂ md5 data p e seen).1.start
    ∧ (ppkStep d₁ md5 data p e seen).1.stop = (ppkStep d₂ md5 data p e seen).1.stop
    ∧ (ppkStep d₁ md5 data p e seen).1.fp = (ppkStep d₂ md5 data p e seen).1.fp
    ∧ (ppkStep d₁ md5 data p e seen).2 = (ppkStep d₂ md5 data p e seen).2 := by
  simp only [ppkStep]
  split
  · exact ⟨rfl, rfl, rfl, rfl⟩
  · split
    · exact ⟨rfl, rfl, rfl, rfl⟩
    · constructor
      · split <;> split <;> rfl
      · constructor
        · split <;> split <;> rfl
        · constructor
          · split <;> split <;> rfl
          · split <;> split <;> rfl

lemma nextEndOf_le (data : List Nat) (p : Nat) : nextEndOf data p ≤ data.length := by
  cases hq : pyFind data (p + 4) with
  | none => simp [nextEndOf, hq]
  | some q =>
    obtain ⟨_, h2⟩ := pyFind_sound hq
    have := occursAt_le h2
    simp only [nextEndOf, hq]
    omega

lemma nextEndOf_ge (data : List Nat) {p : Nat} (h : occursAt data p = true) :
    p + 4 ≤ nextEndOf data p := by
  cases hq : pyFind data (p + 4) with
  | none =>
    have := occursAt_le h
    simp only [nextEndOf, hq]
    omega
  | some q =>
    obtain ⟨h1, _⟩ := pyFind_sound hq
    simp only [nextEndOf, hq]
    omega

lemma blockEndOf_le (data : List Nat) (p : Nat) : blockEndOf data p ≤ data.length := by
  have := nextEndOf_le data p
  unfold blockEndOf
  omega

lemma blockEndOf_ge (data : List Nat) {p : Nat} (h : occursAt data p = true) :
    p + 4 ≤ blockEndOf data p := by
  have h1 := nextEndOf_ge data h
  have hmax : 4 ≤ MAX_BLOCK_SIZE := by norm_num [MAX_BLOCK_SIZE]
  unfold blockEndOf
  omega

lemma ppkAux_seen_mono (decomp : List Nat → Option (List Nat))
    (md5 : List Nat → Fingerprint) (data : List Nat) :
    ∀ (fuel offset : Nat) (seen : List Fingerprint) (g : Fingerprint),
      g ∈ seen → g ∈ (ppkAux decomp md5 data fuel offset seen).seen := by
  intro fuel
  induction fuel with
  | zero => intro offset seen g hg; exact hg
  | succ fuel ih =>
    intro offset seen g hg
    simp only [ppkAux]
    split
    · split
      · exact hg
      · exact ih _ _ g (ppkStep_seen_mono hg)
    · exact hg

lemma ppkAux_dup_of_seen (decomp : List Nat → Option (List Nat))
    (md5 : List Nat → Fingerprint) (data : List Nat) :
    ∀ (fuel offset : Nat) (seen : List Fingerprint) (f : Fingerprint)
      (k : Nat) (rj : BlockRec),
      f ∈ seen →
      (ppkAux decomp md5 data fuel offset seen).records.get? k = some rj →
      rj.fp = some f → rj.outcome = .duplicate := by
  intro fuel
  induction fuel with
  | zero =>
    intro offset seen f k rj _ hk _
    simp [ppkAux] at hk
  | succ fuel ih =>
    intro offset seen f k rj hmem hk hfp
    simp only [ppkAux] at hk
    split at hk
    · split at hk
      · simp at hk
      · cases k with
        | zero =>
          simp only [List.get?_cons_zero, Option.some.injEq] at hk
          subst hk
          exact ppkStep_dup_of_seen hfp hmem
        | succ k =>
          rw [List.get?_cons_succ] at hk
          exact ih _ _ f k rj (ppkStep_seen_mono hmem) hk hfp
    · simp at hk

lemma ppkAux_fp_final (decomp : List Nat → Option (List Nat))
    (md5 : List Nat → Fingerprint) (data : List Nat) :
    ∀ (fuel offset : Nat) (seen : List Fingerprint) (k : Nat)
      (r : BlockRec) (f : Fingerprint),
      (ppkAux decomp md5 data fuel offset seen).records.get? k = some r →
      r.fp = some f → f ∈ (ppkAux decomp md5 data fuel offset seen).seen := by
  intro fuel
  induction fuel with
  | zero =>
    intro offset seen k r f hk _
    simp [ppkAux] at hk
  | succ fuel ih =>
    intro offset seen k r f hk hfp
    simp only [ppkAux] at hk ⊢
    split at hk
    · rename_i hoff
      rw [if_pos hoff]
      split at hk
      · simp at hk
      · rename_i p heq
        cases k with
        | zero =>
          simp only [List.get?_cons_zero, Option.some.injEq] at hk
          subst hk
          exact ppkAux_seen_mono decomp md5 data fuel _ _ f (ppkStep_fp_in_seen hfp)
        | succ k =>
          rw [List.get?_cons_succ] at hk
          exact ih _ _ k r f hk hfp
    · simp at hk

lemma ppkAux_fp_md5 (decomp : List Nat → Option (List Nat))
    (md5 : List Nat → Fingerprint) (data : List Nat) :
    ∀ (fuel offset : Nat) (seen : List Fingerprint) (k : Nat)
      (r : BlockRec) (f : Fingerprint),
      (ppkAux decomp md5 data fuel offset seen).records.get? k = some r →
      r.fp = some f →
      f = md5 ((data.drop r.start).take (r.stop - r.start)) := by
  intro fuel
  induction fuel with
  | zero =>
    intro offset seen k r f hk _
    simp [ppkAux] at hk
  | succ fuel ih =>
    intro offset seen k r f hk hfp
    simp only [ppkAux] at hk
    split at hk
    · split at hk
      · simp at hk
      · rename_i p heq
        cases k with
        | zero =>
          simp only [List.get?_cons_zero, Option.some.injEq] at hk
          subst hk
          obtain ⟨h1, h2⟩ := ppkStep_start_stop decomp md5 data p (blockEndOf data p) seen
          rw [h1, h2]
          exact ppkStep_fp hfp
        | succ k =>
          rw [List.get?_cons_succ] at hk
          exact ih _ _ k r f hk hfp
    · simp at hk

lemma ppkAux_decomp_irrel (d₁ d₂ : List Nat → Option (List Nat))
    (md5 : List Nat → Fingerprint) (data : List Nat) :
    ∀ (fuel offset : Nat) (seen : List Fingerprint),
      ((ppkAux d₁ md5 data fuel offset seen).records.map
          fun r => (r.start, r.stop, r.fp))
        = ((ppkAux d₂ md5 data fuel offset seen).records.map
            fun r => (r.start, r.stop, r.fp))
      ∧ (ppkAux d₁ md5 data fuel offset seen).seen
          = (ppkAux d₂ md5 data fuel offset seen).seen := by
  intro fuel
  induction fuel with
  | zero => intro offset seen; exact ⟨rfl, rfl⟩
  | succ fuel ih =>
    intro offset seen
    simp only [ppkAux]
    by_cases hoff : offset < data.length
    · rw [if_pos hoff, if_pos hoff]
      cases hf : pyFind data offset with
      | none => exact ⟨rfl, rfl⟩
      | some p =>
        dsimp only
        obtain ⟨ha, hb, hc, hd⟩ :=
          ppkStep_decomp_irrel d₁ d₂ md5 data p (blockEndOf data p) seen
        rw [hd]
        obtain ⟨ih1, ih2⟩ :=
          ih (blockEndOf data p) ((ppkStep d₂ md5 data p (blockEndOf data p) seen).2)
        refine ⟨?_, ih2⟩
        simp only [List.map_cons, ha, hb, hc, ih1]
    · rw [if_neg hoff, if_neg hoff]
      exact ⟨rfl, rfl⟩

lemma scanFrom_congr {data : List Nat} {s t : Nat} (hst : s ≤ t)
    (hno : ∀ j, s ≤ j → j < t → occursAt data j = false) :
    scanFrom data t = scanFrom data s := by
  rw [scanFrom_eq data t, scanFrom_eq data s, pyFind_congr hst hno]

lemma ppk_blocks_align (decomp : List Nat → Option (List Nat))
    (md5 : List Nat → Fingerprint) (data : List Nat) :
    ∀ (fuel offset : Nat) (seen : List Fingerprint),
      data.length + 1 - offset ≤ fuel →
      ((ppkAux decomp md5 data fuel offset seen).records.map
          fun r => (r.start, r.stop))
        = pairBlocks data.length (scanFrom data offset) := by
  intro fuel
  induction fuel with
  | zero =>
    intro offset seen h
    rw [scanFrom_eq data offset, pyFind_ge_none data (by omega)]
    rfl
  | succ fuel ih =>
    intro offset seen h
    simp only [ppkAux]
    by_cases hoff : offset < data.length
    case neg =>
      rw [if_neg hoff, scanFrom_eq data offset, pyFind_ge_none data (by omega)]
      rfl
    case pos =>
      rw [if_pos hoff, scanFrom_eq data offset]
      cases hf : pyFind data offset with
      | none => rfl
      | some p =>
        dsimp only
        obtain ⟨hp1, hp2⟩ := pyFind_sound hf
        have hpb := occursAt_le hp2
        have hBge : p + 4 ≤ blockEndOf data p := blockEndOf_ge data hp2
        have hBle : blockEndOf data p ≤ data.length := blockEndOf_le data p
        obtain ⟨h1, h2⟩ := ppkStep_start_stop decomp md5 data p (blockEndOf data p) seen
        cases hq : pyFind data (p + 4) with
        | none =>
          have hq4 : scanFrom data (p + 4) = [] := by
            rw [scanFrom_eq data (p + 4), hq]
          have hBval : blockEndOf data p = min data.length (p + MAX_BLOCK_SIZE) := by
            unfold blockEndOf nextEndOf
            rw [hq]
          have hscB : scanFrom data (blockEndOf data p) = [] := by
            rw [scanFrom_congr hBge (fun j hj1 _ => pyFind_none hq j hj1), hq4]
          have hrest := ih (blockEndOf data p)
            ((ppkStep decomp md5 data p (blockEndOf data p) seen).2) (by omega)
          rw [hscB] at hrest
          rw [hq4]
          simp only [List.map_cons, pairBlocks, hrest, h1, h2, ← hBval]
        | some q =>
          obtain ⟨hq1, hq2⟩ := pyFind_sound hq
          have hqb := occursAt_le hq2
          have hscan4 : scanFrom data (p + 4) = q :: scanFrom data (q + 4) := by
            rw [scanFrom_eq data (p + 4), hq]
          have hBval : blockEndOf data p = min q (p + MAX_BLOCK_SIZE) := by
            unfold blockEndOf nextEndOf
            rw [hq]
          have hBleq : blockEndOf data p ≤ q := by
            rw [hBval]; omega
          have hpfB : pyFind data (blockEndOf data p) = some q := by
            rw [pyFind_congr hBge (fun j hj1 hj2 => pyFind_min hq j hj1 (by omega))]
            exact hq
          have hscB : scanFrom data (blockEndOf data p) = q :: scanFrom data (q + 4) := by
            rw [scanFrom_eq, hpfB]
          have hrest := ih (blockEndOf data p)
            ((ppkStep decomp md5 data p (blockEndOf data p) seen).2) (by omega)
          rw [hscB] at hrest
          rw [hscan4]
          simp only [List.map_cons, pairBlocks, hrest, h1, h2, ← hBval]

lemma ppk_small_blocks (decomp : List Nat → Option (List Nat))
    (md5 : List Nat → Fingerprint) (data : List Nat) :
    ∀ (fuel offset : Nat) (seen : List Fingerprint) (r : BlockRec),
      r ∈ (ppkAux decomp md5 data fuel offset seen).records →
      r.stop - r.start < 1024 →
      r.outcome = .tooSmall ∧ r.fp = none := by
  intro fuel
  induction fuel with
  | zero =>
    intro offset seen r hr _
    simp [ppkAux] at hr
  | succ fuel ih =>
    intro offset seen r hr hsmall
    simp only [ppkAux] at hr
    split at hr
    · split at hr
      · simp at hr
      · rename_i p heq
        have hBle := blockEndOf_le data p
        rcases List.mem_cons.mp hr with rfl | hr'
        · obtain ⟨h1, h2⟩ := ppkStep_start_stop decomp md5 data p (blockEndOf data p) seen
          rw [h1, h2] at hsmall
          have hlen : ((data.drop p).take (blockEndOf data p - p)).length
              = blockEndOf data p - p := by
            rw [List.length_take, List.length_drop]
            omega
          have hstep := ppkStep_small decomp md5 data p (blockEndOf data p) seen
            (by rw [hlen]; omega)
          rw [hstep]
          exact ⟨rfl, rfl⟩
        · exact ih _ _ r hr' hsmall
    · simp at hr

/-- C6: in windowed mode the processed blocks are exactly the byte ranges from
each scanned signature offset to the smaller of the next scanned offset (or
the buffer end when there is none) and the offset plus MAX_BLOCK_SIZE
(20 MiB); and every block shorter than 1024 bytes is discarded as tooSmall
with no fingerprint taken, hence without attempting decompression -- the
statement holds for every decompressor. -/
theorem windowed_block_bounds (decomp : List Nat → Option (List Nat))
    (md5 : List Nat → Fingerprint) (data : List Nat) (seen₀ : List Fingerprint) :
    ((process_ppk_file decomp md5 data seen₀).records.map
        fun r => (r.start, r.stop))
      = pairBlocks data.length (scan_zstd_frames data)
    ∧ ∀ r ∈ (process_ppk_file decomp md5 data seen₀).records,
        r.stop - r.start < 1024 → r.outcome = .tooSmall ∧ r.fp = none := by
  constructor
  · exact ppk_blocks_align decomp md5 data (data.length + 1) 0 seen₀ (by omega)
  · intro r hr hsmall
    exact ppk_small_blocks decomp md5 data (data.length + 1) 0 seen₀ r hr hsmall

/-- Witness for C6: two back-to-back bare signatures give two blocks of four
bytes each, and the first one is discarded as too small with no fingerprint. -/
theorem windowed_block_bounds_witness :
    (⟨0, 4, none, BlockOutcome.tooSmall⟩ : BlockRec).outcome = BlockOutcome.tooSmall
    ∧ (⟨0, 4, none, BlockOutcome.tooSmall⟩ : BlockRec).fp = none :=
  (windowed_block_bounds (fun _ => none) (fun _ => fp0) (zstdMagic ++ zstdMagic) []).2
    ⟨0, 4, none, BlockOutcome.tooSmall⟩ (by decide) (by decide)

lemma ppkAux_fp_later_dup (decomp : List Nat → Option (List Nat))
    (md5 : List Nat → Fingerprint) (data : List Nat) :
    ∀ (fuel offset : Nat) (seen : List Fingerprint) (i j : Nat)
      (ri rj : BlockRec) (f : Fingerprint),
      i < j →
      (ppkAux decomp md5 data fuel offset seen).records.get? i = some ri →
      (ppkAux decomp md5 data fuel offset seen).records.get? j = some rj →
      ri.fp = some f → rj.fp = some f → rj.outcome = .duplicate := by
  intro fuel
  induction fuel with
  | zero =>
    intro offset seen i j ri rj f _ hi _ _ _
    simp [ppkAux] at hi
  | succ fuel ih =>
    intro offset seen i j ri rj f hij hi hj hfi hfj
    simp only [ppkAux] at hi hj
    by_cases hoff : offset < data.length
    case neg =>
      rw [if_neg hoff] at hi
      simp at hi
    case pos =>
      rw [if_pos hoff] at hi hj
      cases hf : pyFind data offset with
      | none =>
        rw [hf] at hi
        simp at hi
      | some p =>
        simp only [hf] at hi hj
        cases i with
        | zero =>
          cases j with
          | zero => omega
          | succ j =>
            simp only [List.get?_cons_zero, Option.some.injEq] at hi
            rw [List.get?_cons_succ] at hj
            subst hi
            exact ppkAux_dup_of_seen decomp md5 data fuel _ _ f j rj
              (ppkStep_fp_in_seen hfi) hj hfj
        | succ i =>
          cases j with
          | zero => omega
          | succ j =>
            rw [List.get?_cons_succ] at hi hj
            exact ih _ _ i j ri rj f (by omega) hi hj hfi hfj

/-- C7: the dedup fingerprint is the 128-bit digest (its values live in
Fin (2 ^ 128)): in the unbounded NpkUnlocker mode every emitted artifact
carries the digest of its decompressed payload; in the windowed PPK mode every
fingerprint in the block trace is the digest of the raw still-compressed block
slice, and the whole fingerprint trace and dedup set are independent of the
decompressor, because the dedup check happens before decompression is
attempted.  Both behaviors are deterministic functions of the bytes hashed. -/
theorem fingerprint_modes :
    (∀ (decomp : List Nat → Option (List Nat)) (md5 : List Nat → Fingerprint)
        (data : List Nat) (p i : Nat) (hs : List Fingerprint) (a : Artifact),
      (extract_single_frame decomp md5 data p i hs).artifact = some a →
      ∃ payload, decomp (data.drop p) = some payload ∧ a.hash = md5 payload)
    ∧ (∀ (decomp : List Nat → Option (List Nat)) (md5 : List Nat → Fingerprint)
        (data : List Nat) (seen₀ : List Fingerprint) (k : Nat)
        (r : BlockRec) (f : Fingerprint),
      (process_ppk_file decomp md5 data seen₀).records.get? k = some r →
      r.fp = some f →
      f = md5 ((data.drop r.start).take (r.stop - r.start)))
    ∧ (∀ (d₁ d₂ : List Nat → Option (List Nat)) (md5 : List Nat → Fingerprint)
        (data : List Nat) (seen₀ : List Fingerprint),
      ((process_ppk_file d₁ md5 data seen₀).records.map
          fun r => (r.start, r.stop, r.fp))
        = ((process_ppk_file d₂ md5 data seen₀).records.map
            fun r => (r.start, r.stop, r.fp))
      ∧ (process_ppk_file d₁ md5 data seen₀).seen
          = (process_ppk_file d₂ md5 data seen₀).seen) := by
  refine ⟨?_, ?_, ?_⟩
  · intro decomp md5 data p i hs a ha
    simp only [extract_single_frame] at ha
    cases hd : decomp (data.drop p) with
    | none =>
      rw [hd] at ha
      simp at ha
    | some payload =>
      rw [hd] at ha
      by_cases hmem : md5 payload ∈ hs
      · simp [hmem] at ha
      · simp only [hmem, if_false, if_neg hmem, Option.some.injEq] at ha
        exact ⟨payload, rfl, by rw [← ha]⟩
  · intro decomp md5 data seen₀ k r f hk hf
    exact ppkAux_fp_md5 decomp md5 data (data.length + 1) 0 seen₀ k r f hk hf
  · intro d₁ d₂ md5 data seen₀
    exact ppkAux_decomp_irrel d₁ d₂ md5 data (data.length + 1) 0 seen₀

/-- C10: in the windowed mode a block's fingerprint is recorded before its
decompression is attempted and is not removed when decompression fails, so a
later processed block with the same fingerprint (in particular a byte
identical block whose decompression would also fail) is dismissed at the dedup
check as a duplicate and yields no artifact, and the fingerprint survives into
the final dedup set: dedup admission is not atomic with successful
extraction. -/
theorem failed_block_fingerprint_retained
    (decomp : List Nat → Option (List Nat)) (md5 : List Nat → Fingerprint)
    (data : List Nat) (seen₀ : List Fingerprint) (i j : Nat)
    (ri rj : BlockRec) (f : Fingerprint)
    (hij : i < j)
    (hi : (process_ppk_file decomp md5 data seen₀).records.get? i = some ri)
    (hj : (process_ppk_file decomp md5 data seen₀).records.get? j = some rj)
    (hfi : ri.fp = some f) (hfj : rj.fp = some f) :
    rj.outcome = BlockOutcome.duplicate
    ∧ f ∈ (process_ppk_file decomp md5 data seen₀).seen := by
  constructor
  · exact ppkAux_fp_later_dup decomp md5 data (data.length + 1) 0 seen₀
      i j ri rj f hij hi hj hfi hfj
  · exact ppkAux_fp_final decomp md5 data (data.length + 1) 0 seen₀ i ri f hi hfi

lemma pyFind_eq_none {data : List Nat} {pos : Nat}
    (h : ∀ j, pos ≤ j → occursAt data j = false) : pyFind data pos = none := by
  cases hf : pyFind data pos with
  | none => rfl
  | some p =>
    obtain ⟨h1, h2⟩ := pyFind_sound hf
    simp [h p h1] at h2

lemma occursAt_byte {data : List Nat} {j : Nat} (h : occursAt data j = true) :
    data.get? j = some 40 := by
  unfold occursAt magicHere at h
  rw [decide_eq_true_eq] at h
  have h0 := congrArg (fun l => l.get? 0) h
  simp only at h0
  rw [List.get?_take (by norm_num), List.get?_drop] at h0
  simpa [zstdMagic] using h0

lemma occursAt_of_byte_ne {data : List Nat} {j b : Nat}
    (h : data.get? j = some b) (hb : b ≠ 40) : occursAt data j = false := by
  cases hocc : occursAt data j with
  | false => rfl
  | true =>
    have h40 := occursAt_byte hocc
    rw [h] at h40
    injection h40 with hb'
    exact absurd hb' hb

lemma ppkAux_congr (decomp : List Nat → Option (List Nat))
    (md5 : List Nat → Fingerprint) (data : List Nat) :
    ∀ (f₁ f₂ offset : Nat) (seen : List Fingerprint),
      data.length + 1 - offset ≤ f₁ → data.length + 1 - offset ≤ f₂ →
      ppkAux decomp md5 data f₁ offset seen = ppkAux decomp md5 data f₂ offset seen := by
  intro f₁
  induction f₁ with
  | zero =>
    intro f₂ offset seen h1 _
    cases f₂ with
    | zero => rfl
    | succ g => simp [ppkAux, show ¬ offset < data.length by omega]
  | succ f ih =>
    intro f₂ offset seen h1 h2
    cases f₂ with
    | zero => simp [ppkAux, show ¬ offset < data.length by omega]
    | succ g =>
      simp only [ppkAux]
      by_cases hoff : offset < data.length
      · rw [if_pos hoff, if_pos hoff]
        cases hf : pyFind data offset with
        | none => rfl
        | some p =>
          dsimp only
          obtain ⟨hp1, hp2⟩ := pyFind_sound hf
          have hge := blockEndOf_ge data hp2
          rw [ih g (blockEndOf data p)
            ((ppkStep decomp md5 data p (blockEndOf data p) seen).2)
            (by omega) (by omega)]
      · rw [if_neg hoff, if_neg hoff]

lemma ppkFrom_eq (decomp : List Nat → Option (List Nat))
    (md5 : List Nat → Fingerprint) (data : List Nat)
    (offset : Nat) (seen : List Fingerprint) :
    ppkFrom decomp md5 data offset seen =
      if offset < data.length then
        match pyFind data offset with
        | none => ⟨[], seen⟩
        | some p =>
          ⟨(ppkStep decomp md5 data p (blockEndOf data p) seen).1 ::
              (ppkFrom decomp md5 data (blockEndOf data p)
                (ppkStep decomp md5 data p (blockEndOf data p) seen).2).records,
            (ppkFrom decomp md5 data (blockEndOf data p)
              (ppkStep decomp md5 data p (blockEndOf data p) seen).2).seen⟩
      else ⟨[], seen⟩ := by
  unfold ppkFrom
  conv_lhs => simp only [ppkAux]
  by_cases hoff : offset < data.length
  · rw [if_pos hoff, if_pos hoff]
    cases hf : pyFind data offset with
    | none => rfl
    | some p =>
      dsimp only
      obtain ⟨hp1, hp2⟩ := pyFind_sound hf
      have hge := blockEndOf_ge data hp2
      rw [ppkAux_congr decomp md5 data data.length (data.length + 1)
        (blockEndOf data p) ((ppkStep decomp md5 data p (blockEndOf data p) seen).2)
        (by omega) (by omega)]
  · rw [if_neg hoff, if_neg hoff]

lemma zstdMagic_length : zstdMagic.length = 4 := rfl

lemma oneBlock_length : oneBlock.length = 1024 := by
  unfold oneBlock
  rw [List.length_append, List.length_replicate, zstdMagic_length]

lemma twoBlocks_length : twoBlocks.length = 2048 := by
  unfold twoBlocks
  rw [List.length_append, oneBlock_length]

lemma twoBlocks_drop_1024 : twoBlocks.drop 1024 = oneBlock := by
  unfold twoBlocks
  have h := List.drop_left oneBlock oneBlock
  rwa [oneBlock_length] at h

lemma twoBlocks_take_1024 : twoBlocks.take 1024 = oneBlock := by
  unfold twoBlocks
  have h := List.take_left oneBlock oneBlock
  rwa [oneBlock_length] at h

lemma oneBlock_byte {j : Nat} (h4 : 4 ≤ j) (hj : j < 1024) :
    oneBlock.get? j = some 0 := by
  unfold oneBlock
  rw [List.get?_append_right (by rw [zstdMagic_length]; omega), zstdMagic_length,
    List.get?_eq_getElem?, List.getElem?_replicate, if_pos (by omega)]

lemma twoBlocks_byte_left {j : Nat} (h4 : 4 ≤ j) (hj : j < 1024) :
    twoBlocks.get? j = some 0 := by
  unfold twoBlocks
  rw [List.get?_append (by rw [oneBlock_length]; omega)]
  exact oneBlock_byte h4 hj

lemma twoBlocks_byte_right {j : Nat} (h4 : 1028 ≤ j) (hj : j < 2048) :
    twoBlocks.get? j = some 0 := by
  unfold twoBlocks
  rw [List.get?_append_right (by rw [oneBlock_length]; omega), oneBlock_length]
  exact oneBlock_byte (by omega) (by omega)

lemma occursAt_twoBlocks_0 : occursAt twoBlocks 0 = true := by
  unfold occursAt
  rw [List.drop_zero]
  decide

lemma occursAt_twoBlocks_1024 : occursAt twoBlocks 1024 = true := by
  unfold occursAt
  rw [twoBlocks_drop_1024]
  decide

lemma pyFind_twoBlocks_0 : pyFind twoBlocks 0 = some 0 :=
  pyFind_eq_some (Nat.le_refl 0) occursAt_twoBlocks_0
    (fun _ _ hj2 => absurd hj2 (by omega))

lemma pyFind_twoBlocks_4 : pyFind twoBlocks 4 = some 1024 := by
  apply pyFind_eq_some (by omega) occursAt_twoBlocks_1024
  intro j hj1 hj2
  exact occursAt_of_byte_ne (twoBlocks_byte_left hj1 hj2) (by omega)

lemma pyFind_twoBlocks_1024 : pyFind twoBlocks 1024 = some 1024 := by
  apply pyFind_eq_some (Nat.le_refl 1024) occursAt_twoBlocks_1024
  intro j hj1 hj2
  exact absurd hj2 (by omega)

lemma pyFind_twoBlocks_1028 : pyFind twoBlocks 1028 = none := by
  apply pyFind_eq_none
  intro j hj
  by_cases hj2 : j < 2048
  · exact occursAt_of_byte_ne (twoBlocks_byte_right hj hj2) (by omega)
  · cases hocc : occursAt twoBlocks j with
    | false => rfl
    | true =>
      have hle := occursAt_le hocc
      rw [twoBlocks_length] at hle
      omega

lemma blockEndOf_twoBlocks_0 : blockEndOf twoBlocks 0 = 1024 := by
  unfold blockEndOf nextEndOf
  norm_num [pyFind_twoBlocks_4, MAX_BLOCK_SIZE]

lemma blockEndOf_twoBlocks_1024 : blockEndOf twoBlocks 1024 = 2048 := by
  unfold blockEndOf nextEndOf
  norm_num [pyFind_twoBlocks_1028, twoBlocks_length, MAX_BLOCK_SIZE]

lemma ppkStep_twoBlocks_0 :
    ppkStep (fun _ => none) (fun _ => fp0) twoBlocks 0 1024 []
      = (⟨0, 1024, some fp0, .decodeFail⟩, [fp0]) := by
  simp [ppkStep, twoBlocks_take_1024, oneBlock_length]

lemma ppkStep_twoBlocks_1024 :
    ppkStep (fun _ => none) (fun _ => fp0) twoBlocks 1024 2048 [fp0]
      = (⟨1024, 2048, some fp0, .duplicate⟩, [fp0]) := by
  have hslice : (twoBlocks.drop 1024).take (2048 - 1024) = oneBlock := by
    rw [twoBlocks_drop_1024, show (2048 : Nat) - 1024 = 1024 from rfl,
      ← oneBlock_length, List.take_length]
  simp [ppkStep, hslice, oneBlock_length]

lemma ppk_twoBlocks_run :
    process_ppk_file (fun _ => none) (fun _ => fp0) twoBlocks []
      = ⟨[⟨0, 1024, some fp0, .decodeFail⟩, ⟨1024, 2048, some fp0, .duplicate⟩],
          [fp0]⟩ := by
  unfold process_ppk_file
  rw [ppkFrom_eq, if_pos (show (0 : Nat) < twoBlocks.length by
    rw [twoBlocks_length]; norm_num), pyFind_twoBlocks_0]
  dsimp only
  rw [blockEndOf_twoBlocks_0, ppkStep_twoBlocks_0]
  dsimp only
  rw [ppkFrom_eq, if_pos (show (1024 : Nat) < twoBlocks.length by
    rw [twoBlocks_length]; norm_num), pyFind_twoBlocks_1024]
  dsimp only
  rw [blockEndOf_twoBlocks_1024, ppkStep_twoBlocks_1024]
  dsimp only
  rw [ppkFrom_eq, if_neg (show ¬ (2048 : Nat) < twoBlocks.length by
    rw [twoBlocks_length]; norm_num)]

/-- Witness for C7 at concrete inputs: a successful unbounded task's artifact
hash is the digest of its payload, and the fingerprint recorded for the first
1024-byte block of twoBlocks is the digest of that raw block slice. -/
theorem fingerprint_modes_witness :
    (∃ payload, (fun _ => some [1] : List Nat → Option (List Nat))
        (List.drop 0 ([] : List Nat)) = some payload
        ∧ (⟨0, "", 1, fp0⟩ : Artifact).hash
            = (fun _ => fp0 : List Nat → Fingerprint) payload)
    ∧ fp0 = (fun _ => fp0 : List Nat → Fingerprint)
        ((twoBlocks.drop 0).take (1024 - 0)) := by
  constructor
  · exact fingerprint_modes.1 (fun _ => some [1]) (fun _ => fp0) [] 0 0 []
      ⟨0, "", 1, fp0⟩ (by decide)
  · exact fingerprint_modes.2.1 (fun _ => none) (fun _ => fp0) twoBlocks [] 0
      ⟨0, 1024, some fp0, BlockOutcome.decodeFail⟩ fp0
      (by rw [ppk_twoBlocks_run]; rfl) rfl

/-- Witness for C10: both blocks of twoBlocks fail to decompress, the first
records the fingerprint with a decodeFail outcome, the second is dismissed as
a duplicate, and the fingerprint stays in the final dedup set. -/
theorem failed_block_fingerprint_retained_witness :
    (⟨1024, 2048, some fp0, BlockOutcome.duplicate⟩ : BlockRec).outcome
        = BlockOutcome.duplicate
    ∧ fp0 ∈ (process_ppk_file (fun _ => none) (fun _ => fp0) twoBlocks []).seen :=
  failed_block_fingerprint_retained (fun _ => none) (fun _ => fp0) twoBlocks []
    0 1 ⟨0, 1024, some fp0, BlockOutcome.decodeFail⟩
    ⟨1024, 2048, some fp0, BlockOutcome.duplicate⟩ fp0
    (by norm_num) (by rw [ppk_twoBlocks_run]; rfl) (by rw [ppk_twoBlocks_run]; rfl) rfl rfl

lemma guiLoop_count_le (decomp : List Nat → Option (List Nat))
    (md5 : List Nat → Fingerprint) (stop : Nat → Bool) (data : List Nat)
    (em et : Bool) :
    ∀ (l : List (Nat × Nat)) (hs : List Fingerprint) (polls : Nat),
      (guiLoop decomp md5 stop data em et l hs polls).count ≤ l.length := by
  intro l
  induction l with
  | nil => intro hs polls; simp [guiLoop]
  | cons x rest ih =>
    intro hs polls
    obtain ⟨i, p⟩ := x
    simp only [guiLoop, List.length_cons]
    split
    · simp
    · have h1 := ih (gui_extract_single_frame decomp md5 stop data p i hs em et
        (polls + 1)).hashes
        (gui_extract_single_frame decomp md5 stop data p i hs em et (polls + 1)).polls
      split <;> (dsimp only; omega)

/-- C1: the number of artifacts extracted never exceeds the number of frame
positions found by the scanner, for the NpkUnlocker container run and for the
GUI worker run under every stop-flag sequence and option setting. -/
theorem artifacts_le_frames (decomp : List Nat → Option (List Nat))
    (md5 : List Nat → Fingerprint) (data : List Nat) :
    (extract_zstd_container decomp md5 data).count ≤ (scan_zstd_frames data).length
    ∧ ∀ (stop : Nat → Bool) (em et : Bool),
        (ExtractWorker_run decomp md5 stop data em et).count
          ≤ (scan_zstd_frames data).length := by
  constructor
  · have h := npkLoop_count_le decomp md5 data (scan_zstd_frames data).enum []
    rw [List.enum_length] at h
    exact h
  · intro stop em et
    unfold ExtractWorker_run ExtractWorker_run_from
    split
    · simp
    · have h := guiLoop_count_le decomp md5 stop data em et
        (scan_zstd_frames data).enum [] 1
      rw [List.enum_length] at h
      exact h

/-- Counterexample for C8: the GUI extraction task polls the cancellation
token at FOUR checkpoints, not three.  Depending on which poll first sees the
token set, four pairwise distinct interruption messages arise (task entry,
before decompression, after decompression before the dedup check, before the
write), and the uninterrupted task reads the flag four times. -/
theorem four_interruption_checkpoints_cex :
    (gui_extract_single_frame (fun _ => some [1]) (fun _ => fp0) (stopGe 0)
        [] 0 0 [] true true 0).msg = TaskMsg.interruptedNotStarted
    ∧ (gui_extract_single_frame (fun _ => some [1]) (fun _ => fp0) (stopGe 1)
        [] 0 0 [] true true 0).msg = TaskMsg.interruptedBeforeDecompress
    ∧ (gui_extract_single_frame (fun _ => some [1]) (fun _ => fp0) (stopGe 2)
        [] 0 0 [] true true 0).msg = TaskMsg.interruptedNotYetWritten
    ∧ (gui_extract_single_frame (fun _ => some [1]) (fun _ => fp0) (stopGe 3)
        [] 0 0 [] true true 0).msg = TaskMsg.interruptedNoWrite
    ∧ [TaskMsg.interruptedNotStarted, TaskMsg.interruptedBeforeDecompress,
        TaskMsg.interruptedNotYetWritten, TaskMsg.interruptedNoWrite].Nodup
    ∧ (gui_extract_single_frame (fun _ => some [1]) (fun _ => fp0) stopNever
        [] 0 0 [] true true 0).polls = 4 := by
  decide

/-- C8 as amended: the task checks the cancellation token at exactly four
checkpoints -- at task entry, before decompression, after decompression and
before the fingerprint/dedup check, and before the file write -- each
producing its own distinctly worded interruption message (distinctness is
established by the counterexample theorem); whenever the token is set at a
checkpoint the task returns false with no artifact and an unchanged dedup
set, and an uninterrupted successful task reads the token exactly four
times. -/
theorem four_checkpoint_cancellation (decomp : List Nat → Option (List Nat))
    (md5 : List Nat → Fingerprint) (stop : Nat → Bool) (data : List Nat)
    (p i : Nat) (hs : List Fingerprint) (et : Bool) (polls : Nat)
    (payload : List Nat) :
    (stop polls = true →
      gui_extract_single_frame decomp md5 stop data p i hs true et polls
        = ⟨false, .interruptedNotStarted, none, hs, polls + 1⟩)
    ∧ (stop polls = false → stop (polls + 1) = true →
      gui_extract_single_frame decomp md5 stop data p i hs true et polls
        = ⟨false, .interruptedBeforeDecompress, none, hs, polls + 2⟩)
    ∧ (stop polls = false → stop (polls + 1) = false →
        decomp (data.drop p) = some payload → stop (polls + 2) = true →
      gui_extract_single_frame decomp md5 stop data p i hs true et polls
        = ⟨false, .interruptedNotYetWritten, none, hs, polls + 3⟩)
    ∧ (stop polls = false → stop (polls + 1) = false →
        decomp (data.drop p) = some payload → stop (polls + 2) = false →
        md5 payload ∉ hs → stop (polls + 3) = true →
      gui_extract_single_frame decomp md5 stop data p i hs true et polls
        = ⟨false, .interruptedNoWrite, none, hs, polls + 4⟩)
    ∧ (stop polls = false → stop (polls + 1) = false →
        decomp (data.drop p) = some payload → stop (polls + 2) = false →
        md5 payload ∉ hs → stop (polls + 3) = false →
      (gui_extract_single_frame decomp md5 stop data p i hs true et polls).ok
          = true
      ∧ (gui_extract_single_frame decomp md5 stop data p i hs true et polls).polls
          = polls + 4) := by
  refine ⟨?_, ?_, ?_, ?_, ?_⟩
  · intro h0
    simp [gui_extract_single_frame, h0]
  · intro h0 h1
    simp [gui_extract_single_frame, h0, h1]
  · intro h0 h1 hd h2
    simp [gui_extract_single_frame, h0, h1, hd, h2]
  · intro h0 h1 hd h2 hmem h3
    simp [gui_extract_single_frame, h0, h1, hd, h2, hmem, h3]
  · intro h0 h1 hd h2 hmem h3
    simp [gui_extract_single_frame, h0, h1, hd, h2, hmem, h3]

/-- Witness for C8 at concrete inputs: a token first seen set at the fourth
poll interrupts the task between classification and write. -/
theorem four_checkpoint_cancellation_witness :
    gui_extract_single_frame (fun _ => some [1]) (fun _ => fp0) (stopGe 3)
        [] 0 0 [] true true 0
      = ⟨false, TaskMsg.interruptedNoWrite, none, [], 4⟩ :=
  (four_checkpoint_cancellation (fun _ => some [1]) (fun _ => fp0) (stopGe 3)
      [] 0 0 [] true 0 [1]).2.2.2.1
    (by decide) (by decide) rfl (by decide) (by decide) (by decide)

lemma gui_task_hashes (decomp : List Nat → Option (List Nat))
    (md5 : List Nat → Fingerprint) (stop : Nat → Bool) (data : List Nat)
    (p i : Nat) (hs : List Fingerprint) (et : Bool) (polls : Nat) :
    (gui_extract_single_frame decomp md5 stop data p i hs true et polls).hashes
      = (match (gui_extract_single_frame decomp md5 stop data p i hs
            true et polls).artifact with
         | some a => a.hash :: hs
         | none => hs) := by
  simp only [gui_extract_single_frame]
  split
  · rfl
  · split
    · rfl
    · split
      · rfl
      · split
        · rfl
        · split
          · rfl
          · split
            · rfl
            · rfl

lemma gui_task_hashes_mono {decomp : List Nat → Option (List Nat)}
    {md5 : List Nat → Fingerprint} {stop : Nat → Bool} {data : List Nat}
    {p i : Nat} {hs : List Fingerprint} {em et : Bool} {polls : Nat}
    {f : Fingerprint} (h : f ∈ hs) :
    f ∈ (gui_extract_single_frame decomp md5 stop data p i hs em et polls).hashes := by
  simp only [gui_extract_single_frame]
  repeat' split
  all_goals first
    | exact h
    | exact List.mem_cons_of_mem _ h

lemma guiLoop_hashes_mono (decomp : List Nat → Option (List Nat))
    (md5 : List Nat → Fingerprint) (stop : Nat → Bool) (data : List Nat)
    (em et : Bool) :
    ∀ (l : List (Nat × Nat)) (hs : List Fingerprint) (polls : Nat)
      (f : Fingerprint), f ∈ hs →
      f ∈ (guiLoop decomp md5 stop data em et l hs polls).hashes := by
  intro l
  induction l with
  | nil => intro hs polls f h; exact h
  | cons x rest ih =>
    intro hs polls f h
    obtain ⟨i, p⟩ := x
    simp only [guiLoop]
    split
    · exact h
    · exact ih _ _ f (gui_task_hashes_mono h)

lemma guiLoop_hashes_perm (decomp : List Nat → Option (List Nat))
    (md5 : List Nat → Fingerprint) (stop : Nat → Bool) (data : List Nat)
    (et : Bool) :
    ∀ (l : List (Nat × Nat)) (hs : List Fingerprint) (polls : Nat),
      (guiLoop decomp md5 stop data true et l hs polls).hashes.Perm
        ((guiLoop decomp md5 stop data true et l hs polls).artifacts.map
            Artifact.hash ++ hs) := by
  intro l
  induction l with
  | nil => intro hs polls; exact List.Perm.refl _
  | cons x rest ih =>
    intro hs polls
    obtain ⟨i, p⟩ := x
    simp only [guiLoop]
    split
    · exact List.Perm.refl _
    · have htask := gui_task_hashes decomp md5 stop data p i hs et (polls + 1)
      cases hart : (gui_extract_single_frame decomp md5 stop data p i hs
          true et (polls + 1)).artifact with
      | none =>
        rw [hart] at htask
        dsimp only at htask ⊢
        rw [htask]
        exact ih _ _
      | some a =>
        rw [hart] at htask
        dsimp only at htask ⊢
        rw [htask]
        refine (ih _ _).trans ?_
        simp only [List.map_cons]
        exact List.perm_middle

/-- C9: the GUI worker creates a fresh empty dedup index at the start of every
run, so the second of two runs on the same input is the very same computation
as the first and yields the same multiset of content hashes; within a run the
index only grows, and with dedup enabled the final index holds exactly the
hashes of the artifacts written during the run on top of the initial
contents. -/
theorem dedup_reset_idempotent (decomp : List Nat → Option (List Nat))
    (md5 : List Nat → Fingerprint) (stop : Nat → Bool) (data : List Nat)
    (et : Bool) :
    Multiset.ofList ((ExtractWorker_run decomp md5 stop data true et).artifacts.map
        Artifact.hash)
      = Multiset.ofList ((ExtractWorker_run decomp md5 stop data true
          et).artifacts.map Artifact.hash)
    ∧ ExtractWorker_run decomp md5 stop data true et
        = ExtractWorker_run_from decomp md5 stop data true et []
    ∧ (∀ (init : List Fingerprint) (f : Fingerprint), f ∈ init →
        f ∈ (ExtractWorker_run_from decomp md5 stop data true et init).hashes)
    ∧ (∀ init : List Fingerprint,
        (ExtractWorker_run_from decomp md5 stop data true et init).hashes.Perm
          ((ExtractWorker_run_from decomp md5 stop data true
              et init).artifacts.map Artifact.hash ++ init)) := by
  refine ⟨rfl, rfl, ?_, ?_⟩
  · intro init f h
    unfold ExtractWorker_run_from
    split
    · exact h
    · exact guiLoop_hashes_mono decomp md5 stop data true et _ init 1 f h
  · intro init
    unfold ExtractWorker_run_from
    split
    · exact List.Perm.refl _
    · exact guiLoop_hashes_perm decomp md5 stop data et _ init 1

/-- Witness for C9 at concrete inputs: a fingerprint present in the initial
index is still present after the run. -/
theorem dedup_reset_idempotent_witness :
    fp0 ∈ (ExtractWorker_run_from (fun _ => none) (fun _ => fp0) stopNever
      [] true true [fp0]).hashes :=
  (dedup_reset_idempotent (fun _ => none) (fun _ => fp0) stopNever
      [] true).2.2.1 [fp0] fp0 (by decide)

/-- C2 is violated by the code: from the initial state in which two tasks hold
the same fingerprint (byte-identical content), the schedule check, check,
mark, mark is reachable and admits BOTH tasks, so the unsynchronized
check-and-mark does not guarantee at-most-one admission per distinct
fingerprint; an exclusive lock around the pair would make this final state
unreachable. -/
theorem dedup_double_admission :
    Relation.ReflTransGen DedupStep
      ⟨[], [(fp0, DedupPhase.ready), (fp0, DedupPhase.ready)]⟩
      ⟨[fp0, fp0], [(fp0, DedupPhase.finished true),
        (fp0, DedupPhase.finished true)]⟩ := by
  have s1 : DedupStep ⟨[], [(fp0, DedupPhase.ready), (fp0, DedupPhase.ready)]⟩
      ⟨[], [(fp0, DedupPhase.checked true), (fp0, DedupPhase.ready)]⟩ :=
    DedupStep.check _ 0 fp0 rfl
  have s2 : DedupStep ⟨[], [(fp0, DedupPhase.checked true), (fp0, DedupPhase.ready)]⟩
      ⟨[], [(fp0, DedupPhase.checked true), (fp0, DedupPhase.checked true)]⟩ :=
    DedupStep.check _ 1 fp0 rfl
  have s3 : DedupStep ⟨[], [(fp0, DedupPhase.checked true),
        (fp0, DedupPhase.checked true)]⟩
      ⟨[fp0], [(fp0, DedupPhase.finished true), (fp0, DedupPhase.checked true)]⟩ :=
    DedupStep.mark _ 0 fp0 rfl
  have s4 : DedupStep ⟨[fp0], [(fp0, DedupPhase.finished true),
        (fp0, DedupPhase.checked true)]⟩
      ⟨[fp0, fp0], [(fp0, DedupPhase.finished true), (fp0, DedupPhase.finished true)]⟩ :=
    DedupStep.mark _ 1 fp0 rfl
  exact .head s1 (.head s2 (.head s3 (.head s4 .refl)))
